import Mathlib

/-!
Verification development for the softpotato 1-D electrochemical
finite-difference simulator.

The definitions below are a shallow embedding of the Python sources:
  * `Grid`  : the dimensionless grid builder shared by
              `sim.py` (`Macro.__init__`), `simulate.py` (`E.grid`) and
              `simulate2.py` (`XGrid.__init__`);
  * `SimE`  : the explicit simulator of `simulate.py` (class `E`);
  * `Macro` : the simulator of `sim.py` (class `Macro`);
  * `Sim2`  : the RK4-based simulator of `simulate2.py`
              (classes `E`, `C`, `TGrid`, `XGrid`, `Simulate`).
Python floats are modelled as real numbers; the 2-D concentration arrays
`C[k, j]` (time index `k`, space index `j`) are modelled as a sequence of
rows built by recursion over the time index, where entries a step never
writes keep the value the array was initialised with (numpy preallocates
every row at initialisation time).
-/

noncomputable section

open Classical

/-- Faraday constant, `F = 96485` (sim.py, simulate.py, simulate2.py). -/
def Fconst : ℝ := 96485

/-- Gas constant, `R = 8.315` (sim.py, simulate.py, simulate2.py). -/
def Rconst : ℝ := 8.315

/-- Module-level temperature `T = 298` of simulate.py and simulate2.py. -/
def Tconst : ℝ := 298

/-- Module-level `FRT = F/(R*T)` of simulate.py and simulate2.py. -/
def FRT : ℝ := Fconst / (Rconst * Tconst)

namespace Grid

/-- `dT = 1/nT` : adimensional time step. -/
def dT (nT : ℕ) : ℝ := 1 / nT

/-- `lamb = 0.45` : the fixed stability target. -/
def lamb : ℝ := 0.45

/-- `Xmax = 6*sqrt(nT*lamb)` : effectively infinite distance. -/
def Xmax (nT : ℕ) : ℝ := 6 * Real.sqrt (nT * lamb)

/-- `dX = sqrt(dT/lamb)` : distance increment. -/
def dX (nT : ℕ) : ℝ := Real.sqrt (dT nT / lamb)

/-- `nX = int(Xmax/dX)` : number of distance elements (truncation of a
nonnegative float is the floor). -/
def nX (nT : ℕ) : ℕ := ⌊Xmax nT / dX nT⌋₊

/-- `X = linspace(0, Xmax, nX)` : the j-th grid point `Xmax*j/(nX-1)`. -/
def X (nT : ℕ) (j : ℕ) : ℝ := Xmax nT * j / ((nX nT : ℝ) - 1)

end Grid

/-- Parameter record of `simulate.py`'s class `E`: in field order
`nT` (size of `wf.t`), `tw` (the time array `wf.t`), `Ew` (the potential
array `wf.E`), then `n`, `A`, `E0`, `cOb`, `cRb`, `DO`, `DR`, `k0`,
`alpha`. -/
structure EP where
  nT : ℕ
  tw : ℕ → ℝ
  Ew : ℕ → ℝ
  n : ℝ
  A : ℝ
  E0 : ℝ
  cOb : ℝ
  cRb : ℝ
  DO : ℝ
  DR : ℝ
  k0 : ℝ
  alpha : ℝ

namespace SimE

/-- `DOR = DO/DR` (simulate.py `E.__init__`). -/
def DOR (p : EP) : ℝ := p.DO / p.DR

/-- Spatial increment of the run, from the grid builder. -/
def dX (p : EP) : ℝ := Grid.dX p.nT

/-- Number of spatial nodes of the run, from the grid builder. -/
def nX (p : EP) : ℕ := Grid.nX p.nT

/-- `eps = (wf.E - E0)*n*FRT` : adimensional potential waveform. -/
def eps (p : EP) (k : ℕ) : ℝ := (p.Ew k - p.E0) * p.n * FRT

/-- `wf.t[-1]` : final time of the waveform. -/
def tlast (p : EP) : ℝ := p.tw (p.nT - 1)

/-- `delta = sqrt(DR*wf.t[-1])` : diffusion layer thickness. -/
def delta (p : EP) : ℝ := Real.sqrt (p.DR * tlast p)

/-- `K0 = k0*delta/DR` : normalised standard rate constant. -/
def K0 (p : EP) : ℝ := p.k0 * delta p / p.DR

/-- Initial fill value of the `CR` array: zeros when only O is present
(`cRb == 0`), ones otherwise. -/
def initCR (p : EP) : ℝ := if p.cRb = 0 then 0 else 1

/-- Initial fill value of the `CO` array: ones when only O is present,
`cOb/cRb` otherwise. -/
def initCO (p : EP) : ℝ := if p.cRb = 0 then 1 else p.cOb / p.cRb

/-- The Butler-Volmer surface value written to `CR[k,0]` in `E.run`,
from the previous row's node-1 values `CR1kb`, `CO1kb`. -/
def bcCR (p : EP) (k : ℕ) (CR1kb CO1kb : ℝ) : ℝ :=
  (CR1kb + dX p * K0 p * Real.exp (-p.alpha * eps p k) * (CO1kb + CR1kb / DOR p)) /
    (1 + dX p * K0 p *
      (Real.exp ((1 - p.alpha) * eps p k) + Real.exp (-p.alpha * eps p k) / DOR p))

/-- One time step of the `CR` array in `E.run`: node 0 gets the
Butler-Volmer value, nodes `1..nX-2` the explicit FTCS update
(slice `CR[k,1:-1]`), and the remaining nodes keep the value the
preallocated row was initialised with. -/
def stepCR (p : EP) (k : ℕ) (prev : (ℕ → ℝ) × (ℕ → ℝ)) : ℕ → ℝ := fun j =>
  if j = 0 then bcCR p k (prev.1 1) (prev.2 1)
  else if j < nX p - 1 then
    prev.1 j + Grid.lamb * (prev.1 (j + 1) - 2 * prev.1 j + prev.1 (j - 1))
  else initCR p

/-- One time step of the `CO` array in `E.run`: node 0 gets
`CO1kb + (CR1kb - CR[k,0])/DOR`, nodes `1..nX-2` the explicit FTCS
update (with no `DOR` factor, as in the source), the rest keep the
initial fill. -/
def stepCO (p : EP) (k : ℕ) (prev : (ℕ → ℝ) × (ℕ → ℝ)) : ℕ → ℝ := fun j =>
  if j = 0 then prev.2 1 + (prev.1 1 - bcCR p k (prev.1 1) (prev.2 1)) / DOR p
  else if j < nX p - 1 then
    prev.2 j + Grid.lamb * (prev.2 (j + 1) - 2 * prev.2 j + prev.2 (j - 1))
  else initCO p

/-- The rows `(CR[k,·], CO[k,·])` produced by the time loop of `E.run`. -/
def rows (p : EP) : ℕ → (ℕ → ℝ) × (ℕ → ℝ)
  | 0 => (fun _ => initCR p, fun _ => initCO p)
  | k + 1 => (stepCR p (k + 1) (rows p k), stepCO p (k + 1) (rows p k))

/-- `CR[k,j]` of `simulate.py`. -/
def CR (p : EP) (k j : ℕ) : ℝ := (rows p k).1 j

/-- `CO[k,j]` of `simulate.py`. -/
def CO (p : EP) (k j : ℕ) : ℝ := (rows p k).2 j

/-- Denormalised concentration `cR = CR*cRb` (simulate.py `E.run`). -/
def cR (p : EP) (k j : ℕ) : ℝ := CR p k j * p.cRb

/-- Denormalised concentration `cO = CO*cOb` (simulate.py `E.run`). -/
def cO (p : EP) (k j : ℕ) : ℝ := CO p k j * p.cOb

/-- Denormalised distance axis `x = X*delta` (simulate.py `E.run`). -/
def x (p : EP) (j : ℕ) : ℝ := Grid.X p.nT j * delta p

end SimE

/-- Parameter record of `sim.py`'s class `Macro`: in field order
`nT` (size of `wf.t`), `tw` (`wf.t`), `Ew` (`wf.E`), then the `Emech`
arguments `E0`, `n`, `DO`, `DR`, `cOb`, `cRb`, `ks`, `alpha`, `BV`,
`Ageo`, `T`. -/
structure MP where
  nT : ℕ
  tw : ℕ → ℝ
  Ew : ℕ → ℝ
  E0 : ℝ
  n : ℝ
  DO : ℝ
  DR : ℝ
  cOb : ℝ
  cRb : ℝ
  ks : ℝ
  alpha : ℝ
  BV : String
  Ageo : ℝ
  T : ℝ

namespace Macro

/-- `FRT = F/(R*T)` with the per-run temperature (sim.py `Emech`). -/
def FRTv (q : MP) : ℝ := Fconst / (Rconst * q.T)

/-- `dt = t[1]` (sim.py `Macro.__init__`). -/
def dt (q : MP) : ℝ := q.tw 1

/-- Spatial increment of the run, from the grid builder. -/
def dX (q : MP) : ℝ := Grid.dX q.nT

/-- Number of spatial nodes of the run, from the grid builder. -/
def nX (q : MP) : ℕ := Grid.nX q.nT

/-- `t[-1]` : final time of the waveform. -/
def tlast (q : MP) : ℝ := q.tw (q.nT - 1)

/-- `delta = sqrt(DR*t[-1])` (sim.py `Emech`). -/
def delta (q : MP) : ℝ := Real.sqrt (q.DR * tlast q)

/-- `K0 = ks*delta/DR` (sim.py `Emech`). -/
def K0 (q : MP) : ℝ := q.ks * delta q / q.DR

/-- `DOR = DO/DR` (sim.py `Emech`). -/
def DOR (q : MP) : ℝ := q.DO / q.DR

/-- `eps = (E - E0)*n*FRT` (sim.py `Macro.sim`). -/
def eps (q : MP) (k : ℕ) : ℝ := (q.Ew k - q.E0) * q.n * FRTv q

/-- Initial fill value of `CR` (sim.py `Emech`). -/
def initCR (q : MP) : ℝ := if q.cRb = 0 then 0 else 1

/-- Initial fill value of `CO` (sim.py `Emech`). -/
def initCO (q : MP) : ℝ := if q.cRb = 0 then 1 else q.cOb / q.cRb

/-- `Macro.bc(CR1kb, CO1kb, eps)` : the surface pair `(CR, CO)` for the
three kinetic regimes; any selector other than `"QR"` and `"RO"` falls
into the final `else` (oxidation-only) branch. -/
def bc (q : MP) (CR1kb CO1kb epsv : ℝ) : ℝ × ℝ :=
  if q.BV = "QR" then
    let CRv := (CR1kb + dX q * K0 q * Real.exp (-q.alpha * epsv) * (CO1kb + CR1kb / DOR q)) /
      (1 + dX q * K0 q *
        (Real.exp ((1 - q.alpha) * epsv) + Real.exp (-q.alpha * epsv) / DOR q))
    (CRv, CO1kb + (CR1kb - CRv) / DOR q)
  else if q.BV = "RO" then
    let CRv := CR1kb / (1 + dX q * K0 q * Real.exp ((1 - q.alpha) * epsv))
    (CRv, CO1kb + (CR1kb - CRv) / DOR q)
  else
    let COv := CO1kb / (1 + dX q * K0 q * Real.exp (-q.alpha * epsv))
    (CR1kb + (CO1kb - COv) / DOR q, COv)

/-- One time step of `CR` in `Macro.sim`: node 0 from `bc`, interior
nodes `1..nX-2` by FTCS with factor `lamb`. -/
def stepCR (q : MP) (k : ℕ) (prev : (ℕ → ℝ) × (ℕ → ℝ)) : ℕ → ℝ := fun j =>
  if j = 0 then (bc q (prev.1 1) (prev.2 1) (eps q k)).1
  else if j < nX q - 1 then
    prev.1 j + Grid.lamb * (prev.1 (j + 1) - 2 * prev.1 j + prev.1 (j - 1))
  else initCR q

/-- One time step of `CO` in `Macro.sim`: node 0 from `bc`, interior
nodes by FTCS with factor `DOR*lamb`. -/
def stepCO (q : MP) (k : ℕ) (prev : (ℕ → ℝ) × (ℕ → ℝ)) : ℕ → ℝ := fun j =>
  if j = 0 then (bc q (prev.1 1) (prev.2 1) (eps q k)).2
  else if j < nX q - 1 then
    prev.2 j + DOR q * Grid.lamb * (prev.2 (j + 1) - 2 * prev.2 j + prev.2 (j - 1))
  else initCO q

/-- The rows `(CR[k,·], CO[k,·])` produced by the time loop of `Macro.sim`. -/
def rows (q : MP) : ℕ → (ℕ → ℝ) × (ℕ → ℝ)
  | 0 => (fun _ => initCR q, fun _ => initCO q)
  | k + 1 => (stepCR q (k + 1) (rows q k), stepCO q (k + 1) (rows q k))

/-- `CR[k,j]` of `sim.py`. -/
def CR (q : MP) (k j : ℕ) : ℝ := (rows q k).1 j

/-- `CO[k,j]` of `sim.py`. -/
def CO (q : MP) (k j : ℕ) : ℝ := (rows q k).2 j

/-- Denormalised `cR` of `Macro.sim`: `CR*cRb` when R is present in the
bulk, `(1-CO)*cOb` otherwise. -/
def cR (q : MP) (k j : ℕ) : ℝ :=
  if q.cRb ≠ 0 then CR q k j * q.cRb else (1 - CO q k j) * q.cOb

/-- Denormalised `cO` of `Macro.sim`: `CO*cOb` when both bulks are
present, `(1-CR)*cRb` when only R is present, `CO*cOb` when only O is. -/
def cO (q : MP) (k j : ℕ) : ℝ :=
  if q.cRb ≠ 0 then
    (if q.cOb ≠ 0 then CO q k j * q.cOb else (1 - CR q k j) * q.cRb)
  else CO q k j * q.cOb

/-- Denormalised distance axis `x = X*delta` (sim.py `Macro.sim`). -/
def x (q : MP) (j : ℕ) : ℝ := Grid.X q.nT j * delta q

end Macro

/-- Parameter record for a `simulate2.py` run with one `E` species and
one `C` species: in field order `nT` (size of `twf`), `tw` (`twf`),
`Ew` (`Ewf`), the `E.__init__` arguments `n`, `DO`, `DR`, `cOb`, `cRb`,
`E0`, `ks`, `alpha`, the `C.__init__` arguments `DP`, `cPb`, `kc`, and
the mechanism tag passed to `Simulate`. -/
structure P2 where
  nT : ℕ
  tw : ℕ → ℝ
  Ew : ℕ → ℝ
  n : ℝ
  DO : ℝ
  DR : ℝ
  cOb : ℝ
  cRb : ℝ
  E0 : ℝ
  ks : ℝ
  alpha : ℝ
  DP : ℝ
  cPb : ℝ
  kc : ℝ
  mech : String

namespace Sim2

/-- `DOR = DO/DR` (simulate2.py `E.__init__`). -/
def DOR (p : P2) : ℝ := p.DO / p.DR

/-- `tgrid.dT = 1/nT` (simulate2.py `TGrid.__init__`). -/
def dT (p : P2) : ℝ := 1 / p.nT

/-- Spatial increment of the run, from the grid builder. -/
def dX (p : P2) : ℝ := Grid.dX p.nT

/-- Number of spatial nodes of the run, from the grid builder. -/
def nX (p : P2) : ℕ := Grid.nX p.nT

/-- `twf[-1]` : final time of the waveform. -/
def tlast (p : P2) : ℝ := p.tw (p.nT - 1)

/-- `delta = sqrt(DR*twf[-1])` (simulate2.py `XGrid.__init__`). -/
def delta (p : P2) : ℝ := Real.sqrt (p.DR * tlast p)

/-- `Ke = ks*delta/DR` (simulate2.py `XGrid.__init__`). -/
def Ke (p : P2) : ℝ := p.ks * delta p / p.DR

/-- `Kc = kc*delta/DR` (simulate2.py `Simulate.join`). -/
def Kc (p : P2) : ℝ := p.kc * delta p / p.DR

/-- `eps = (Ewf - E0)*n*FRT` (simulate2.py `XGrid.__init__`). -/
def eps (p : P2) (k : ℕ) : ℝ := (p.Ew k - p.E0) * p.n * FRT

/-- Initial fill value of `CR` (simulate2.py `XGrid.__init__`). -/
def initCR (p : P2) : ℝ := if p.cRb = 0 then 0 else 1

/-- Initial fill value of `CO` (simulate2.py `XGrid.__init__`). -/
def initCO (p : P2) : ℝ := if p.cRb = 0 then 1 else p.cOb / p.cRb

/-- The matrix `A` built in `XGrid.__init__`: the tridiagonal
`diags([1,-2,1])/dX**2` with its first row replaced by the unit row
`e_0` (the "initial condition" row). Entries outside the `nX` by `nX`
block are 0. -/
def Amat (nXv : ℕ) (dXv : ℝ) (r c : ℕ) : ℝ :=
  if r = 0 then (if c = 0 then 1 else 0)
  else if r < nXv ∧ c < nXv then
    (if c = r then -2 / dXv ^ 2 else if c + 1 = r ∨ c = r + 1 then 1 / dXv ^ 2 else 0)
  else 0

/-- `np.dot(A, y)` restricted to the `nXv` columns of the matrix. -/
def matVec (A : ℕ → ℕ → ℝ) (nXv : ℕ) (y : ℕ → ℝ) (r : ℕ) : ℝ :=
  Finset.sum (Finset.range nXv) (fun c => A r c * y c)

/-- `Simulate.fun(y, mech, species, params)` : the RK4 stage function,
`A·y` plus a reaction term that is `-dT*Kc*y` for mech `"EC"`,
`+dT*Kc*y` for mech `"ECP"` and `0` otherwise. -/
def fn (p : P2) (mech : String) (y : ℕ → ℝ) : ℕ → ℝ := fun r =>
  matVec (Amat (nX p) (dX p)) (nX p) y r +
    (if mech = "EC" then -(dT p * Kc p * y r)
     else if mech = "ECP" then dT p * Kc p * y r else 0)

/-- `Simulate.RK4` as a function of the stage function `f`: the same `f`
is evaluated at all four stages, and the result is
`y + (dT/6)*(k1 + 2*k2 + 2*k3 + k4)`. -/
def RK4gen (dTv : ℝ) (f : (ℕ → ℝ) → ℕ → ℝ) (y : ℕ → ℝ) : ℕ → ℝ :=
  let k1 := f y
  let k2 := f (fun m => y m + dTv * k1 m / 2)
  let k3 := f (fun m => y m + dTv * k2 m / 2)
  let k4 := f (fun m => y m + dTv * k3 m)
  fun r => y r + (dTv / 6) * (k1 r + 2 * k2 r + 2 * k3 r + k4 r)

/-- `Simulate.RK4(y, mech, ...)` of simulate2.py. -/
def RK4 (p : P2) (mech : String) (y : ℕ → ℝ) : ℕ → ℝ :=
  RK4gen (dT p) (fn p mech) y

/-- The Butler-Volmer surface value written to `CR[k,0]` in
`Simulate.sim`. -/
def bcCR (p : P2) (k : ℕ) (CR1kb CO1kb : ℝ) : ℝ :=
  (CR1kb + dX p * Ke p * Real.exp (-p.alpha * eps p k) * (CO1kb + CR1kb / DOR p)) /
    (1 + dX p * Ke p *
      (Real.exp ((1 - p.alpha) * eps p k) + Real.exp (-p.alpha * eps p k) / DOR p))

/-- One time step of `Simulate.sim` on the triple
`(CR[k,·], CO[k,·], CP[k,·])`: `CR[k,0]`/`CO[k,0]` from the
Butler-Volmer condition, `CR[k,1:-1]` by RK4 with mech `"E"`,
`CO[k,1:-1]` by RK4 with mech `"E"` or `"EC"` depending on the
mechanism tag (left at its initial fill for any other tag), and for
mech `"EC"` also `CP[k,0] = CP[k-1,1]` and `CP[k,1:-1]` by RK4 with
mech `"ECP"`; unwritten entries keep the preallocated fill. -/
def stepTriple (p : P2) (k : ℕ) (prev : (ℕ → ℝ) × (ℕ → ℝ) × (ℕ → ℝ)) :
    (ℕ → ℝ) × (ℕ → ℝ) × (ℕ → ℝ) :=
  (fun j =>
    if j = 0 then bcCR p k (prev.1 1) (prev.2.1 1)
    else if j < nX p - 1 then RK4 p "E" prev.1 j
    else initCR p,
   fun j =>
    if j = 0 then prev.2.1 1 + (prev.1 1 - bcCR p k (prev.1 1) (prev.2.1 1)) / DOR p
    else if j < nX p - 1 then
      (if p.mech = "E" then RK4 p "E" prev.2.1 j
       else if p.mech = "EC" then RK4 p "EC" prev.2.1 j
       else initCO p)
    else initCO p,
   fun j =>
    if p.mech = "EC" then
      (if j = 0 then prev.2.2 1
       else if j < nX p - 1 then RK4 p "ECP" prev.2.2 j
       else 0)
    else 0)

/-- The rows `(CR[k,·], CO[k,·], CP[k,·])` of `Simulate.sim`; `CP` is
preallocated with zeros. -/
def rows (p : P2) : ℕ → (ℕ → ℝ) × (ℕ → ℝ) × (ℕ → ℝ)
  | 0 => (fun _ => initCR p, fun _ => initCO p, fun _ => 0)
  | k + 1 => stepTriple p (k + 1) (rows p k)

/-- `CR[k,j]` of `simulate2.py`. -/
def CR (p : P2) (k j : ℕ) : ℝ := (rows p k).1 j

/-- `CO[k,j]` of `simulate2.py`. -/
def CO (p : P2) (k j : ℕ) : ℝ := (rows p k).2.1 j

/-- `CP[k,j]` of `simulate2.py`. -/
def CP (p : P2) (k j : ℕ) : ℝ := (rows p k).2.2 j

/-- The `cP` output of `Simulate.sim`: `self.cP = s.CP` with the `*cPb`
factor commented out in the source. -/
def cP (p : P2) (k j : ℕ) : ℝ := CP p k j

/-- Denormalised distance axis `x = X*delta` (simulate2.py). -/
def x (p : P2) (j : ℕ) : ℝ := Grid.X p.nT j * delta p

end Sim2

/-- Modelled from the spec: forward-elimination coefficients `c'` of the
Thomas algorithm used by the implicit stepping variant, which is part of
this repository but absent from `src/` (only the explicit and RK4
steppers are present there). -/
def thomC (a b c : ℕ → ℝ) : ℕ → ℝ
  | 0 => c 0 / b 0
  | i + 1 => c (i + 1) / (b (i + 1) - a (i + 1) * thomC a b c i)

/-- Modelled from the spec: forward-elimination right-hand sides `d'` of
the Thomas algorithm. -/
def thomD (a b c d : ℕ → ℝ) : ℕ → ℝ
  | 0 => d 0 / b 0
  | i + 1 => (d (i + 1) - a (i + 1) * thomD a b c d i) /
      (b (i + 1) - a (i + 1) * thomC a b c i)

/-- Modelled from the spec: back-substitution of the Thomas algorithm;
`thomAux a b c d nv m` is the solution entry at index `nv - 1 - m`. -/
def thomAux (a b c d : ℕ → ℝ) (nv : ℕ) : ℕ → ℝ
  | 0 => thomD a b c d (nv - 1)
  | m + 1 => thomD a b c d (nv - 1 - (m + 1)) -
      thomC a b c (nv - 1 - (m + 1)) * thomAux a b c d nv m

/-- Modelled from the spec: the solution of the `nv` by `nv` tridiagonal
system with subdiagonal `a`, diagonal `b`, superdiagonal `c` and
right-hand side `d`, produced by one forward sweep and one backward
sweep of the Thomas algorithm. -/
def thomas (a b c d : ℕ → ℝ) (nv i : ℕ) : ℝ := thomAux a b c d nv (nv - 1 - i)

/-- Modelled from the spec: the double-layer charging update of the
electrode potential, `V[k+1] = (V[k] + (dt/Cdl)*(E[k]/Ru - iF[k])) /
(1 + dt/(Cdl*Ru))`; the implicit variant that performs it is absent
from `src/`. -/
def Vnext (V Ek iF dtv Cdl Ru : ℝ) : ℝ :=
  (V + (dtv / Cdl) * (Ek / Ru - iF)) / (1 + dtv / (Cdl * Ru))

/-- Modelled from the spec: the total measured current `i = (E - V)/Ru`
reported when double-layer charging is enabled. -/
def itot (Ek V Ru : ℝ) : ℝ := (Ek - V) / Ru

/-- Reaction stage function with coefficient `cv` on the concrete
`nT = 5` grid (`nX = 13`, `dX = 2/3`): a proof gadget for evaluating
the RK4 stepper at concrete inputs. -/
def reactFn (cv : ℝ) (y : ℕ → ℝ) : ℕ → ℝ := fun r =>
  Sim2.matVec (Sim2.Amat 13 (2 / 3)) 13 y r + cv * y r

/-- The all-ones row (the initial `CO` row of a run with `cRb = 0`). -/
def y1c : ℕ → ℝ := fun _ => 1

/-- RK4 stage 1 of `reactFn cv` from the all-ones row. -/
def k1f (cv : ℝ) : ℕ → ℝ := reactFn cv y1c

/-- RK4 stage-2 input vector. -/
def y2c (cv : ℝ) : ℕ → ℝ := fun m => y1c m + (1 / 5) * k1f cv m / 2

/-- RK4 stage 2. -/
def k2f (cv : ℝ) : ℕ → ℝ := reactFn cv (y2c cv)

/-- RK4 stage-3 input vector. -/
def y3c (cv : ℝ) : ℕ → ℝ := fun m => y1c m + (1 / 5) * k2f cv m / 2

/-- RK4 stage 3. -/
def k3f (cv : ℝ) : ℕ → ℝ := reactFn cv (y3c cv)

/-- RK4 stage-4 input vector. -/
def y4c (cv : ℝ) : ℕ → ℝ := fun m => y1c m + (1 / 5) * k3f cv m

/-- RK4 stage 4. -/
def k4f (cv : ℝ) : ℕ → ℝ := reactFn cv (y4c cv)

/-- Subdiagonal of a concrete diagonally dominant tridiagonal system. -/
def aW : ℕ → ℝ := fun _ => 1

/-- Diagonal of the concrete tridiagonal system. -/
def bW : ℕ → ℝ := fun _ => 4

/-- Superdiagonal of the concrete tridiagonal system. -/
def cW : ℕ → ℝ := fun _ => 1

/-- Right-hand side of the concrete tridiagonal system. -/
def dW : ℕ → ℝ := fun _ => 1

/-- Concrete `simulate.py` run: `nT = 5` (so `dX = 2/3`, `nX = 13`),
constant unit time array, zero potential ramp, `n = 1`, `A = 1`,
`E0 = 0`, `cOb = 0`, `cRb = 1`, `DO = DR = 1`, `k0 = 1`,
`alpha = 1/2`. -/
def pE5 : EP := ⟨5, fun _ => 1, fun _ => 0, 1, 1, 0, 0, 1, 1, 1, 1, 1 / 2⟩

/-- Concrete `simulate.py` run identical to `pE5` except `DO = 2`, so
that `DOR = 2` while all boundary-condition values stay rational. -/
def pE5d : EP := ⟨5, fun _ => 1, fun _ => 0, 1, 1, 0, 0, 1, 2, 1, 1, 1 / 2⟩

/-- Concrete `simulate.py` run with a one-point waveform (`nT = 1`) and
only O present in the bulk. -/
def pE1 : EP := ⟨1, fun _ => 1, fun _ => 0, 1, 1, 0, 1, 0, 1, 1, 1, 1 / 2⟩

/-- Concrete `sim.py` run in the quasi-reversible regime: `nT = 5`,
unit time array, zero ramp, `E0 = 0`, `n = 1`, `DO = DR = 1`,
`cOb = 0`, `cRb = 1`, `ks = 1`, `alpha = 1/2`, `BV = "QR"`,
`Ageo = 1`, `T = 298`. -/
def qM5 : MP := ⟨5, fun _ => 1, fun _ => 0, 0, 1, 1, 1, 0, 1, 1, 1 / 2, "QR", 1, 298⟩

/-- Concrete `sim.py` configuration that the spec's validation rules
would reject: negative `DO`, both bulk concentrations set, and the
unrecognised selector `BV = "XX"`. -/
def qMbad : MP := ⟨5, fun _ => 1, fun _ => 0, 0, 1, -1, 1, 1, 1, 3, 1 / 2, "XX", 1, 298⟩

/-- Concrete `simulate2.py` EC run: `nT = 5`, unit time array, zero
ramp, `n = 1`, `DO = DR = 1`, `cOb = 1`, `cRb = 0`, `E0 = 0`, `ks = 1`,
`alpha = 1/2`, `DP = 1`, `cPb = 0`, `kc = 5` (so `Kc = 5`),
mech `"EC"`. -/
def p25 : P2 := ⟨5, fun _ => 1, fun _ => 0, 1, 1, 1, 1, 0, 0, 1, 1 / 2, 1, 0, 5, "EC"⟩

/-- The adimensional time step is positive for a nonempty waveform. -/
theorem grid_dT_pos {nT : ℕ} (h : 1 ≤ nT) : 0 < Grid.dT nT := by
  have hn : (0 : ℝ) < nT := by exact_mod_cast h
  simpa [Grid.dT] using one_div_pos.mpr hn

/-- The square of the spatial increment is `dT/lamb`. -/
theorem grid_dX_sq (nT : ℕ) : Grid.dX nT ^ 2 = Grid.dT nT / Grid.lamb := by
  have h0 : 0 ≤ Grid.dT nT / Grid.lamb := by
    apply div_nonneg
    · simp only [Grid.dT]
      positivity
    · norm_num [Grid.lamb]
  simpa [Grid.dX] using Real.sq_sqrt h0

/-- The stability ratio of the constructed grid is exactly `lamb`. -/
theorem grid_ratio {nT : ℕ} (h : 1 ≤ nT) :
    Grid.dT nT / Grid.dX nT ^ 2 = Grid.lamb := by
  have hd : Grid.dT nT ≠ 0 := ne_of_gt (grid_dT_pos h)
  have hl : Grid.lamb ≠ 0 := by norm_num [Grid.lamb]
  rw [grid_dX_sq]
  rw [div_div_eq_mul_div, mul_comm, mul_div_assoc, div_self hd, mul_one]

/-- `Xmax/dX = 6*lamb*nT` : the quantity whose truncation is `nX`. -/
theorem grid_Xmax_div_dX {nT : ℕ} (h : 1 ≤ nT) :
    Grid.Xmax nT / Grid.dX nT = 6 * Grid.lamb * nT := by
  have hn : (0 : ℝ) < nT := by exact_mod_cast h
  have hl : (0 : ℝ) < Grid.lamb := by norm_num [Grid.lamb]
  have h1 : Grid.dT nT / Grid.lamb = ((nT : ℝ) * Grid.lamb)⁻¹ := by
    rw [Grid.dT, div_div, one_div]
  have h2 : Grid.dX nT = (Real.sqrt ((nT : ℝ) * Grid.lamb))⁻¹ := by
    rw [Grid.dX, h1, Real.sqrt_inv]
  rw [Grid.Xmax, h2, div_eq_mul_inv, inv_inv, mul_assoc,
    Real.mul_self_sqrt (mul_nonneg (Nat.cast_nonneg nT) hl.le)]
  ring

/-- The node count of the constructed grid is `floor(2.7*nT)`. -/
theorem grid_nX_eq {nT : ℕ} (h : 1 ≤ nT) :
    Grid.nX nT = ⌊(27 / 10 : ℝ) * nT⌋₊ := by
  rw [Grid.nX, grid_Xmax_div_dX h]
  congr 1
  norm_num [Grid.lamb]

/-- For `nT = 5` the grid has exactly 13 nodes. -/
theorem grid_nX_five : Grid.nX 5 = 13 := by
  rw [grid_nX_eq (by norm_num), Nat.floor_eq_iff (by norm_num)]
  norm_num

/-- For `nT = 1` the grid has exactly 2 nodes. -/
theorem grid_nX_one : Grid.nX 1 = 2 := by
  rw [grid_nX_eq le_rfl, Nat.floor_eq_iff (by norm_num)]
  norm_num

/-- For `nT = 5` the spatial increment is the rational value `2/3`. -/
theorem grid_dX_five : Grid.dX 5 = 2 / 3 := by
  rw [Grid.dX,
    show Grid.dT 5 / Grid.lamb = ((2 : ℝ) / 3) ^ 2 by norm_num [Grid.dT, Grid.lamb]]
  exact Real.sqrt_sq (by norm_num)

/-- Claim C3: for every waveform with `nT >= 1` time points, the grid
builder fixes `lamb = 0.45` and chooses `dX = sqrt(dT/lamb)` with
`dT = 1/nT`, so the stability ratio `dT/dX^2` equals 0.45 and is
strictly less than 0.5 for every constructed grid. -/
theorem C3_stability_ratio (nT : ℕ) (h : 1 ≤ nT) :
    Grid.lamb = 0.45 ∧ Grid.dX nT = Real.sqrt (Grid.dT nT / Grid.lamb) ∧
      Grid.dT nT / Grid.dX nT ^ 2 = 0.45 ∧ (0.45 : ℝ) < 0.5 :=
  ⟨rfl, rfl, grid_ratio h, by norm_num⟩

/-- Claim C1: at every time step `k >= 1` of a quasi-reversible run the
surface (index-0) concentrations are set from the previous row's node-1
values `CR_prev = CR[k-1,1]`, `CO_prev = CO[k-1,1]` by the closed-form
Butler-Volmer expressions
`CR[k,0] = (CR_prev + dX*K0*exp(-alpha*eps[k])*(CO_prev + CR_prev/DOR))
/ (1 + dX*K0*(exp((1-alpha)*eps[k]) + exp(-alpha*eps[k])/DOR))` and
`CO[k,0] = CO_prev + (CR_prev - CR[k,0])/DOR`, with no iterative
root-finding, in both `simulate.py` (`E.run`) and `sim.py`
(`Macro.bc` with `BV = "QR"`). -/
theorem C1_surface_condition (p : EP) (q : MP) (k : ℕ) (hk : 1 ≤ k)
    (hq : q.BV = "QR") :
    (SimE.CR p k 0 =
      (SimE.CR p (k - 1) 1 +
          SimE.dX p * SimE.K0 p * Real.exp (-p.alpha * SimE.eps p k) *
            (SimE.CO p (k - 1) 1 + SimE.CR p (k - 1) 1 / SimE.DOR p)) /
        (1 + SimE.dX p * SimE.K0 p *
          (Real.exp ((1 - p.alpha) * SimE.eps p k) +
            Real.exp (-p.alpha * SimE.eps p k) / SimE.DOR p)) ∧
      SimE.CO p k 0 =
        SimE.CO p (k - 1) 1 + (SimE.CR p (k - 1) 1 - SimE.CR p k 0) / SimE.DOR p) ∧
    (Macro.CR q k 0 =
      (Macro.CR q (k - 1) 1 +
          Macro.dX q * Macro.K0 q * Real.exp (-q.alpha * Macro.eps q k) *
            (Macro.CO q (k - 1) 1 + Macro.CR q (k - 1) 1 / Macro.DOR q)) /
        (1 + Macro.dX q * Macro.K0 q *
          (Real.exp ((1 - q.alpha) * Macro.eps q k) +
            Real.exp (-q.alpha * Macro.eps q k) / Macro.DOR q)) ∧
      Macro.CO q k 0 =
        Macro.CO q (k - 1) 1 + (Macro.CR q (k - 1) 1 - Macro.CR q k 0) / Macro.DOR q) := by
  obtain ⟨m, rfl⟩ : ∃ m, k = m + 1 := ⟨k - 1, (Nat.succ_pred_eq_of_pos hk).symm⟩
  refine ⟨⟨?_, ?_⟩, ⟨?_, ?_⟩⟩
  · simp [SimE.CR, SimE.CO, SimE.rows, SimE.stepCR, SimE.bcCR]
  · simp [SimE.CR, SimE.CO, SimE.rows, SimE.stepCR, SimE.stepCO, SimE.bcCR]
  · simp [Macro.CR, Macro.CO, Macro.rows, Macro.stepCR, Macro.bc, hq]
  · simp [Macro.CR, Macro.CO, Macro.rows, Macro.stepCR, Macro.stepCO, Macro.bc, hq]

/-- Claim C1 witness: the surface equations at time step `k = 1` of the
concrete runs `pE5` and `qM5`. -/
theorem C1_surface_condition_witness :
    (SimE.CR pE5 1 0 =
      (SimE.CR pE5 0 1 +
          SimE.dX pE5 * SimE.K0 pE5 * Real.exp (-pE5.alpha * SimE.eps pE5 1) *
            (SimE.CO pE5 0 1 + SimE.CR pE5 0 1 / SimE.DOR pE5)) /
        (1 + SimE.dX pE5 * SimE.K0 pE5 *
          (Real.exp ((1 - pE5.alpha) * SimE.eps pE5 1) +
            Real.exp (-pE5.alpha * SimE.eps pE5 1) / SimE.DOR pE5)) ∧
      SimE.CO pE5 1 0 =
        SimE.CO pE5 0 1 + (SimE.CR pE5 0 1 - SimE.CR pE5 1 0) / SimE.DOR pE5) ∧
    (Macro.CR qM5 1 0 =
      (Macro.CR qM5 0 1 +
          Macro.dX qM5 * Macro.K0 qM5 * Real.exp (-qM5.alpha * Macro.eps qM5 1) *
            (Macro.CO qM5 0 1 + Macro.CR qM5 0 1 / Macro.DOR qM5)) /
        (1 + Macro.dX qM5 * Macro.K0 qM5 *
          (Real.exp ((1 - qM5.alpha) * Macro.eps qM5 1) +
            Real.exp (-qM5.alpha * Macro.eps qM5 1) / Macro.DOR qM5)) ∧
      Macro.CO qM5 1 0 =
        Macro.CO qM5 0 1 + (Macro.CR qM5 0 1 - Macro.CR qM5 1 0) / Macro.DOR qM5) :=
  C1_surface_condition pE5 qM5 1 le_rfl rfl

/-- Claim C4: mass conservation for the pure E mechanism: with no
coupled homogeneous reaction and equal diffusion coefficients
(`DOR = 1`), for every time step `k` and every spatial node `j`,
`CO[k,j] + CR[k,j]` equals its initial total 1 (exactly one bulk
species present), preserved by both the Butler-Volmer surface update
and the explicit interior update of `E.run`. -/
theorem C4_mass_conservation (p : EP) (hD : SimE.DOR p = 1)
    (hb : p.cOb = 0 ∨ p.cRb = 0) :
    ∀ k j, SimE.CO p k j + SimE.CR p k j = 1 := by
  have hinit : SimE.initCO p + SimE.initCR p = 1 := by
    by_cases hr : p.cRb = 0
    · simp [SimE.initCO, SimE.initCR, hr]
    · rcases hb with hO | hR
      · simp [SimE.initCO, SimE.initCR, hr, hO]
      · exact absurd hR hr
  intro k
  induction k with
  | zero =>
    intro j
    simpa [SimE.CO, SimE.CR, SimE.rows] using hinit
  | succ m ih =>
    intro j
    show (SimE.rows p (m + 1)).2 j + (SimE.rows p (m + 1)).1 j = 1
    simp only [SimE.rows]
    by_cases h0 : j = 0
    · subst h0
      simp only [SimE.stepCO, SimE.stepCR, eq_self_iff_true, if_true]
      rw [hD, div_one]
      have h1 := ih 1
      simp only [SimE.CO, SimE.CR] at h1
      linarith
    · by_cases hj : j < SimE.nX p - 1
      · simp only [SimE.stepCO, SimE.stepCR, if_neg h0, if_pos hj]
        have ha := ih (j + 1)
        have hb2 := ih j
        have hc := ih (j - 1)
        simp only [SimE.CO, SimE.CR] at ha hb2 hc
        rw [show Grid.lamb = (9 : ℝ) / 20 by norm_num [Grid.lamb]]
        linarith
      · simp only [SimE.stepCO, SimE.stepCR, if_neg h0, if_neg hj]
        exact hinit

/-- Claim C4 witness: the conserved total at time step 2, node 1 of the
concrete run `pE5` (equal diffusion coefficients, only R in the bulk). -/
theorem C4_mass_conservation_witness :
    SimE.CO pE5 2 1 + SimE.CR pE5 2 1 = 1 :=
  C4_mass_conservation pE5 (by norm_num [SimE.DOR, pE5]) (Or.inl rfl) 2 1

/-- Claim C2 (amended): for every time step `k >= 1` and every interior
node `j` in `1..nX-2`, the explicit stepper of `sim.py` (`Macro.sim`)
computes `C[k,j] = C[k-1,j] + lamb*D_ratio*(C[k-1,j+1] - 2*C[k-1,j] +
C[k-1,j-1])` with `D_ratio = 1` for `CR` and `D_ratio = DOR` for `CO`,
whereas the explicit stepper of `simulate.py` (`E.run`) uses
`D_ratio = 1` for both fields (no `DOR` factor on `CO`). -/
theorem C2_interior_update (p : EP) (q : MP) (k j : ℕ) (hk : 1 ≤ k)
    (hj0 : 1 ≤ j) (hjp : j < SimE.nX p - 1) (hjq : j < Macro.nX q - 1) :
    (SimE.CR p k j = SimE.CR p (k - 1) j +
        Grid.lamb * 1 * (SimE.CR p (k - 1) (j + 1) - 2 * SimE.CR p (k - 1) j +
          SimE.CR p (k - 1) (j - 1)) ∧
      SimE.CO p k j = SimE.CO p (k - 1) j +
        Grid.lamb * 1 * (SimE.CO p (k - 1) (j + 1) - 2 * SimE.CO p (k - 1) j +
          SimE.CO p (k - 1) (j - 1))) ∧
    (Macro.CR q k j = Macro.CR q (k - 1) j +
        Grid.lamb * 1 * (Macro.CR q (k - 1) (j + 1) - 2 * Macro.CR q (k - 1) j +
          Macro.CR q (k - 1) (j - 1)) ∧
      Macro.CO q k j = Macro.CO q (k - 1) j +
        Macro.DOR q * Grid.lamb * (Macro.CO q (k - 1) (j + 1) - 2 * Macro.CO q (k - 1) j +
          Macro.CO q (k - 1) (j - 1))) := by
  obtain ⟨m, rfl⟩ : ∃ m, k = m + 1 := ⟨k - 1, (Nat.succ_pred_eq_of_pos hk).symm⟩
  have hne : ¬(j = 0) := by omega
  refine ⟨⟨?_, ?_⟩, ⟨?_, ?_⟩⟩ <;>
    simp [SimE.CR, SimE.CO, SimE.rows, SimE.stepCR, SimE.stepCO, Macro.CR,
      Macro.CO, Macro.rows, Macro.stepCR, Macro.stepCO, hne, hjp, hjq]

/-- Claim C2 witness: the interior update equations at time step 1,
node 1 of the concrete runs `pE5` and `qM5`. -/
theorem C2_interior_update_witness :
    (SimE.CR pE5 1 1 = SimE.CR pE5 0 1 +
        Grid.lamb * 1 * (SimE.CR pE5 0 2 - 2 * SimE.CR pE5 0 1 + SimE.CR pE5 0 0) ∧
      SimE.CO pE5 1 1 = SimE.CO pE5 0 1 +
        Grid.lamb * 1 * (SimE.CO pE5 0 2 - 2 * SimE.CO pE5 0 1 + SimE.CO pE5 0 0)) ∧
    (Macro.CR qM5 1 1 = Macro.CR qM5 0 1 +
        Grid.lamb * 1 * (Macro.CR qM5 0 2 - 2 * Macro.CR qM5 0 1 + Macro.CR qM5 0 0) ∧
      Macro.CO qM5 1 1 = Macro.CO qM5 0 1 +
        Macro.DOR qM5 * Grid.lamb *
          (Macro.CO qM5 0 2 - 2 * Macro.CO qM5 0 1 + Macro.CO qM5 0 0)) :=
  C2_interior_update pE5 qM5 1 1 le_rfl le_rfl
    (by rw [show SimE.nX pE5 = 13 from grid_nX_five]; norm_num)
    (by rw [show Macro.nX qM5 = 13 from grid_nX_five]; norm_num)

/-- Claim C2 counterexample: in the concrete `simulate.py` run `pE5d`
(`DOR = 2`), the `CO` field at time step 2, node 1 does not satisfy the
claimed update with `D_ratio = DOR`: the code advances `CO` with factor
`lamb` alone. -/
theorem C2_counterexample :
    ¬(SimE.CO pE5d 2 1 = SimE.CO pE5d 1 1 + Grid.lamb * SimE.DOR pE5d *
        (SimE.CO pE5d 1 2 - 2 * SimE.CO pE5d 1 1 + SimE.CO pE5d 1 0)) := by
  have hdX : SimE.dX pE5d = 2 / 3 := grid_dX_five
  have hnX : SimE.nX pE5d = 13 := grid_nX_five
  have hdelta : SimE.delta pE5d = 1 := by
    have h1 : pE5d.DR * SimE.tlast pE5d = 1 := by norm_num [SimE.tlast, pE5d]
    rw [SimE.delta, h1, Real.sqrt_one]
  have hK0 : SimE.K0 pE5d = 1 := by
    rw [SimE.K0, hdelta]; norm_num [pE5d]
  have hDOR : SimE.DOR pE5d = 2 := by norm_num [SimE.DOR, pE5d]
  have heps : SimE.eps pE5d 1 = 0 := by norm_num [SimE.eps, pE5d]
  have hr0CR : ∀ j, (SimE.rows pE5d 0).1 j = 1 := by
    intro j; simp [SimE.rows, SimE.initCR, pE5d]
  have hr0CO : ∀ j, (SimE.rows pE5d 0).2 j = 0 := by
    intro j; simp [SimE.rows, SimE.initCO, pE5d]
  have hbc : SimE.bcCR pE5d 1 1 0 = 2 / 3 := by
    rw [SimE.bcCR, heps, hdX, hK0, hDOR]
    norm_num [Real.exp_zero]
  have hcond1 : (1 : ℕ) < SimE.nX pE5d - 1 := by rw [hnX]; norm_num
  have hcond2 : (2 : ℕ) < SimE.nX pE5d - 1 := by rw [hnX]; norm_num
  have hCO10 : SimE.CO pE5d 1 0 = 1 / 6 := by
    show SimE.stepCO pE5d 1 (SimE.rows pE5d 0) 0 = 1 / 6
    simp [SimE.stepCO, hr0CR, hr0CO, hbc, hDOR]
    norm_num
  have hCO11 : SimE.CO pE5d 1 1 = 0 := by
    show SimE.stepCO pE5d 1 (SimE.rows pE5d 0) 1 = 0
    simp [SimE.stepCO, hcond1, hr0CO]
  have hCO12 : SimE.CO pE5d 1 2 = 0 := by
    show SimE.stepCO pE5d 1 (SimE.rows pE5d 0) 2 = 0
    simp [SimE.stepCO, hcond2, hr0CO]
  have hlhs : SimE.CO pE5d 2 1 = 3 / 40 := by
    show SimE.stepCO pE5d 2 (SimE.rows pE5d 1) 1 = 3 / 40
    simp only [SimE.stepCO]
    rw [if_neg (by norm_num), if_pos hcond1]
    rw [show (SimE.rows pE5d 1).2 (1 + 1) = SimE.CO pE5d 1 2 from rfl,
      show (SimE.rows pE5d 1).2 1 = SimE.CO pE5d 1 1 from rfl,
      show (SimE.rows pE5d 1).2 (1 - 1) = SimE.CO pE5d 1 0 from rfl,
      hCO11, hCO12, hCO10,
      show Grid.lamb = (9 : ℝ) / 20 from by norm_num [Grid.lamb]]
    norm_num
  rw [hlhs, hCO11, hCO12, hCO10, hDOR,
    show Grid.lamb = (9 : ℝ) / 20 from by norm_num [Grid.lamb]]
  norm_num

/-- Claim C7 (amended): the grid builders of `sim.py` and `simulate.py`
perform no validation: for every `nT >= 1` construction succeeds with
`nX = floor(2.7*nT)` (even when that value is below 3) and the
concentration fields are initialised unconditionally; neither builder
checks `dt`. -/
theorem C7_no_validation (nT : ℕ) (h : 1 ≤ nT) :
    Grid.nX nT = ⌊(27 / 10 : ℝ) * nT⌋₊ ∧
      ∀ (p : EP) (j : ℕ),
        SimE.CR p 0 j = SimE.initCR p ∧ SimE.CO p 0 j = SimE.initCO p :=
  ⟨grid_nX_eq h, fun _ _ => ⟨rfl, rfl⟩⟩

/-- Claim C7 (amended) witness at the one-point waveform `nT = 1`. -/
theorem C7_no_validation_witness :
    Grid.nX 1 = ⌊(27 / 10 : ℝ) * ((1 : ℕ) : ℝ)⌋₊ ∧
      SimE.CR pE1 0 0 = SimE.initCR pE1 ∧ SimE.CO pE1 0 0 = SimE.initCO pE1 :=
  ⟨(C7_no_validation 1 le_rfl).1, (C7_no_validation 1 le_rfl).2 pE1 0⟩

/-- Claim C7 counterexample: for a one-point waveform (`nT = 1`) the
builder derives `nX = 2 < 3` and still constructs the grid and
initialises the concentration fields, instead of failing with a
configuration error. -/
theorem C7_counterexample :
    Grid.nX 1 = 2 ∧ Grid.nX 1 < 3 ∧ SimE.CO pE1 0 0 = 1 ∧ SimE.CR pE1 0 0 = 0 := by
  refine ⟨grid_nX_one, by rw [grid_nX_one]; norm_num, ?_, ?_⟩
  · show SimE.initCO pE1 = 1
    simp [SimE.initCO, pE1]
  · show SimE.initCR pE1 = 0
    simp [SimE.initCR, pE1]

/-- Claim C8 (amended): no configuration validation occurs: parameter
records with non-positive coefficients or both bulk concentrations set
are accepted as-is, and `Macro.bc` silently dispatches every selector
other than `"QR"` and `"RO"` to the oxidation-only `else` branch
instead of raising an error. -/
theorem C8_no_selector_validation (q : MP) (h1 : q.BV ≠ "QR")
    (h2 : q.BV ≠ "RO") (CR1kb CO1kb epsv : ℝ) :
    Macro.bc q CR1kb CO1kb epsv =
      (CR1kb + (CO1kb - CO1kb / (1 + Macro.dX q * Macro.K0 q *
          Real.exp (-q.alpha * epsv))) / Macro.DOR q,
        CO1kb / (1 + Macro.dX q * Macro.K0 q * Real.exp (-q.alpha * epsv))) := by
  simp only [Macro.bc]
  rw [if_neg h1, if_neg h2]

/-- Claim C8 (amended) witness: the unrecognised selector `"XX"` of the
configuration `qMbad` is dispatched to the oxidation-only branch. -/
theorem C8_no_selector_validation_witness :
    Macro.bc qMbad 0 1 0 =
      (0 + (1 - 1 / (1 + Macro.dX qMbad * Macro.K0 qMbad *
          Real.exp (-qMbad.alpha * 0))) / Macro.DOR qMbad,
        1 / (1 + Macro.dX qMbad * Macro.K0 qMbad * Real.exp (-qMbad.alpha * 0))) :=
  C8_no_selector_validation qMbad (by decide) (by decide) 0 1 0

/-- Claim C8 counterexample: the configuration `qMbad` (negative `DO`,
both bulk concentrations set, unrecognised selector `"XX"`) is accepted
and dispatched to the default oxidation-only branch of `Macro.bc`,
which returns the definite value `(-2/3, 1/3)` (a negative
concentration, since `DOR = -1`) instead of raising a configuration
error. -/
theorem C8_counterexample :
    qMbad.DO ≤ 0 ∧ qMbad.BV ≠ "QR" ∧ qMbad.BV ≠ "RO" ∧
      qMbad.cOb ≠ 0 ∧ qMbad.cRb ≠ 0 ∧
      Macro.bc qMbad 0 1 0 = (-(2 / 3 : ℝ), 1 / 3) := by
  refine ⟨by norm_num [qMbad], by decide, by decide, by norm_num [qMbad],
    by norm_num [qMbad], ?_⟩
  have hdX : Macro.dX qMbad = 2 / 3 := grid_dX_five
  have hdelta : Macro.delta qMbad = 1 := by
    have h1 : qMbad.DR * Macro.tlast qMbad = 1 := by norm_num [Macro.tlast, qMbad]
    rw [Macro.delta, h1, Real.sqrt_one]
  have hK0 : Macro.K0 qMbad = 3 := by
    rw [Macro.K0, hdelta]; norm_num [qMbad]
  have hDOR : Macro.DOR qMbad = -1 := by norm_num [Macro.DOR, qMbad]
  have hval : Macro.bc qMbad 0 1 0 =
      (0 + (1 - 1 / (1 + Macro.dX qMbad * Macro.K0 qMbad *
          Real.exp (-qMbad.alpha * 0))) / Macro.DOR qMbad,
        1 / (1 + Macro.dX qMbad * Macro.K0 qMbad * Real.exp (-qMbad.alpha * 0))) := by
    simp only [Macro.bc]
    rw [if_neg (by decide : ¬qMbad.BV = "QR"), if_neg (by decide : ¬qMbad.BV = "RO")]
  rw [hval, hdX, hK0, hDOR]
  norm_num [Real.exp_zero, qMbad, Prod.ext_iff]

/-- Claim C9 (amended): `simulate.py` denormalises `cR = CR*cRb`,
`cO = CO*cOb` and `x = X*delta`; `sim.py` denormalises `x = X*delta`
and, when both bulk concentrations are nonzero, `cO = CO*cOb`, but when
only R is present (`cOb = 0`) it reconstructs `cO` as `(1-CR)*cRb`
rather than multiplying the `CO` field by its (zero) bulk
concentration; `simulate2.py` sets `x = X*delta` but returns `cP`
without the `cPb` factor. -/
theorem C9_denormalisation :
    (∀ (p : EP) (k j : ℕ), SimE.cR p k j = SimE.CR p k j * p.cRb ∧
      SimE.cO p k j = SimE.CO p k j * p.cOb ∧
      SimE.x p j = Grid.X p.nT j * SimE.delta p) ∧
    (∀ (q : MP) (k j : ℕ), Macro.x q j = Grid.X q.nT j * Macro.delta q ∧
      (q.cRb ≠ 0 → q.cOb ≠ 0 → Macro.cO q k j = Macro.CO q k j * q.cOb) ∧
      (q.cRb ≠ 0 → q.cOb = 0 → Macro.cO q k j = (1 - Macro.CR q k j) * q.cRb)) ∧
    (∀ (r : P2) (k j : ℕ), Sim2.cP r k j = Sim2.CP r k j ∧
      Sim2.x r j = Grid.X r.nT j * Sim2.delta r) := by
  refine ⟨fun p k j => ⟨rfl, rfl, rfl⟩, fun q k j => ⟨rfl, ?_, ?_⟩,
    fun r k j => ⟨rfl, rfl⟩⟩
  · intro hR hO
    simp [Macro.cO, hR, hO]
  · intro hR hO
    simp [Macro.cO, hR, hO]

/-- Claim C9 (amended) witness: the reconstruction branch of `sim.py`'s
post-processor at the concrete run `qM5` (`cOb = 0`). -/
theorem C9_denormalisation_witness :
    Macro.cO qM5 1 0 = (1 - Macro.CR qM5 1 0) * qM5.cRb :=
  (C9_denormalisation.2.1 qM5 1 0).2.2 (by norm_num [qM5]) rfl

/-- Claim C9 counterexample: in the concrete `sim.py` run `qM5` (only R
present, `cOb = 0`), the post-processor returns `cO[1,0] = 2/7`, while
multiplying the dimensionless field by the corresponding bulk
concentration would give `CO[1,0]*cOb = 0`. -/
theorem C9_counterexample :
    Macro.cO qM5 1 0 ≠ Macro.CO qM5 1 0 * qM5.cOb := by
  have hdXm : Macro.dX qM5 = 2 / 3 := grid_dX_five
  have hdeltam : Macro.delta qM5 = 1 := by
    have h1 : qM5.DR * Macro.tlast qM5 = 1 := by norm_num [Macro.tlast, qM5]
    rw [Macro.delta, h1, Real.sqrt_one]
  have hK0m : Macro.K0 qM5 = 1 := by
    rw [Macro.K0, hdeltam]; norm_num [qM5]
  have hDORm : Macro.DOR qM5 = 1 := by norm_num [Macro.DOR, qM5]
  have hepsm : Macro.eps qM5 1 = 0 := by norm_num [Macro.eps, qM5]
  have hr0CRm : ∀ j, (Macro.rows qM5 0).1 j = 1 := by
    intro j; simp [Macro.rows, Macro.initCR, qM5]
  have hr0COm : ∀ j, (Macro.rows qM5 0).2 j = 0 := by
    intro j; simp [Macro.rows, Macro.initCO, qM5]
  have hBV : qM5.BV = "QR" := rfl
  have hbcm : (Macro.bc qM5 1 0 0).1 = 5 / 7 := by
    simp only [Macro.bc, hBV, eq_self_iff_true, if_true]
    rw [hdXm, hK0m, hDORm]
    norm_num [Real.exp_zero, qM5]
  have hCRm : Macro.CR qM5 1 0 = 5 / 7 := by
    show Macro.stepCR qM5 1 (Macro.rows qM5 0) 0 = 5 / 7
    simp only [Macro.stepCR, eq_self_iff_true, if_true]
    rw [hr0CRm 1, hr0COm 1, hepsm]
    exact hbcm
  have hlhs : Macro.cO qM5 1 0 = 2 / 7 := by
    simp only [Macro.cO]
    rw [if_pos (show qM5.cRb ≠ 0 from by norm_num [qM5]),
      if_neg (show ¬qM5.cOb ≠ 0 from by norm_num [qM5]), hCRm]
    norm_num [qM5]
  rw [hlhs, show qM5.cOb = 0 from rfl, mul_zero]
  norm_num

/-- Claim C10: the outermost spatial node is never written by any
stepper: at every time step `k`, the value of every concentration field
(`CR`, `CO` of all three simulators and `CP` of `simulate2.py`) at
spatial index `nX-1` equals its initialisation (bulk) value, because
the surface update writes only index 0 and the interior updates write
only indices `1..nX-2`. -/
theorem C10_last_column (p : EP) (q : MP) (r : P2)
    (hp : 2 ≤ SimE.nX p) (hq : 2 ≤ Macro.nX q) (hr : 2 ≤ Sim2.nX r) :
    ∀ k,
      SimE.CR p k (SimE.nX p - 1) = SimE.CR p 0 (SimE.nX p - 1) ∧
      SimE.CO p k (SimE.nX p - 1) = SimE.CO p 0 (SimE.nX p - 1) ∧
      Macro.CR q k (Macro.nX q - 1) = Macro.CR q 0 (Macro.nX q - 1) ∧
      Macro.CO q k (Macro.nX q - 1) = Macro.CO q 0 (Macro.nX q - 1) ∧
      Sim2.CR r k (Sim2.nX r - 1) = Sim2.CR r 0 (Sim2.nX r - 1) ∧
      Sim2.CO r k (Sim2.nX r - 1) = Sim2.CO r 0 (Sim2.nX r - 1) ∧
      Sim2.CP r k (Sim2.nX r - 1) = Sim2.CP r 0 (Sim2.nX r - 1) := by
  have hp0 : ¬(SimE.nX p - 1 = 0) := by omega
  have hq0 : ¬(Macro.nX q - 1 = 0) := by omega
  have hr0 : ¬(Sim2.nX r - 1 = 0) := by omega
  intro k
  cases k with
  | zero => exact ⟨rfl, rfl, rfl, rfl, rfl, rfl, rfl⟩
  | succ m =>
    refine ⟨?_, ?_, ?_, ?_, ?_, ?_, ?_⟩
    · show SimE.stepCR p (m + 1) (SimE.rows p m) (SimE.nX p - 1) = SimE.initCR p
      simp [SimE.stepCR, hp0]
    · show SimE.stepCO p (m + 1) (SimE.rows p m) (SimE.nX p - 1) = SimE.initCO p
      simp [SimE.stepCO, hp0]
    · show Macro.stepCR q (m + 1) (Macro.rows q m) (Macro.nX q - 1) = Macro.initCR q
      simp [Macro.stepCR, hq0]
    · show Macro.stepCO q (m + 1) (Macro.rows q m) (Macro.nX q - 1) = Macro.initCO q
      simp [Macro.stepCO, hq0]
    · show (Sim2.stepTriple r (m + 1) (Sim2.rows r m)).1 (Sim2.nX r - 1) = Sim2.initCR r
      simp [Sim2.stepTriple, hr0]
    · show (Sim2.stepTriple r (m + 1) (Sim2.rows r m)).2.1 (Sim2.nX r - 1) = Sim2.initCO r
      simp [Sim2.stepTriple, hr0]
    · show (Sim2.stepTriple r (m + 1) (Sim2.rows r m)).2.2 (Sim2.nX r - 1) = (0 : ℝ)
      simp [Sim2.stepTriple, hr0]

/-- Claim C10 witness: the preserved last column at time step 3 of the
concrete runs `pE5`, `qM5` and `p25`. -/
theorem C10_last_column_witness :
    SimE.CR pE5 3 (SimE.nX pE5 - 1) = SimE.CR pE5 0 (SimE.nX pE5 - 1) ∧
    SimE.CO pE5 3 (SimE.nX pE5 - 1) = SimE.CO pE5 0 (SimE.nX pE5 - 1) ∧
    Macro.CR qM5 3 (Macro.nX qM5 - 1) = Macro.CR qM5 0 (Macro.nX qM5 - 1) ∧
    Macro.CO qM5 3 (Macro.nX qM5 - 1) = Macro.CO qM5 0 (Macro.nX qM5 - 1) ∧
    Sim2.CR p25 3 (Sim2.nX p25 - 1) = Sim2.CR p25 0 (Sim2.nX p25 - 1) ∧
    Sim2.CO p25 3 (Sim2.nX p25 - 1) = Sim2.CO p25 0 (Sim2.nX p25 - 1) ∧
    Sim2.CP p25 3 (Sim2.nX p25 - 1) = Sim2.CP p25 0 (Sim2.nX p25 - 1) :=
  C10_last_column pE5 qM5 p25
    (by rw [show SimE.nX pE5 = 13 from grid_nX_five]; norm_num)
    (by rw [show Macro.nX qM5 = 13 from grid_nX_five]; norm_num)
    (by rw [show Sim2.nX p25 = 13 from grid_nX_five]; norm_num) 3

/-- On an interior row (`1 <= r`, `r+1 < nX`) the matrix built by
`XGrid.__init__` acts as the three-point discrete Laplacian. -/
theorem matVec_interior (nXv : ℕ) (dXv : ℝ) (y : ℕ → ℝ) (r : ℕ)
    (h1 : 1 ≤ r) (h2 : r + 1 < nXv) :
    Sim2.matVec (Sim2.Amat nXv dXv) nXv y r =
      (y (r - 1) - 2 * y r + y (r + 1)) / dXv ^ 2 := by
  have hr0 : ¬(r = 0) := by omega
  have hsub : ({r - 1, r, r + 1} : Finset ℕ) ⊆ Finset.range nXv := by
    intro z hz
    simp only [Finset.mem_insert, Finset.mem_singleton] at hz
    simp only [Finset.mem_range]
    omega
  have hzero : ∀ z ∈ Finset.range nXv, z ∉ ({r - 1, r, r + 1} : Finset ℕ) →
      Sim2.Amat nXv dXv r z * y z = 0 := by
    intro z hzr hz
    simp only [Finset.mem_insert, Finset.mem_singleton, not_or] at hz
    obtain ⟨hz1, hz2, hz3⟩ := hz
    have hzn : z < nXv := Finset.mem_range.mp hzr
    have hA : Sim2.Amat nXv dXv r z = 0 := by
      simp only [Sim2.Amat]
      rw [if_neg hr0, if_pos (by omega : r < nXv ∧ z < nXv),
        if_neg (by omega : ¬z = r), if_neg (by omega : ¬(z + 1 = r ∨ z = r + 1))]
    rw [hA, zero_mul]
  have hsum : Sim2.matVec (Sim2.Amat nXv dXv) nXv y r =
      Finset.sum ({r - 1, r, r + 1} : Finset ℕ)
        (fun c => Sim2.Amat nXv dXv r c * y c) := by
    simp only [Sim2.matVec]
    exact (Finset.sum_subset hsub hzero).symm
  have e1 : Sim2.Amat nXv dXv r (r - 1) = 1 / dXv ^ 2 := by
    simp only [Sim2.Amat]
    rw [if_neg hr0, if_pos (by omega : r < nXv ∧ r - 1 < nXv),
      if_neg (by omega : ¬r - 1 = r), if_pos (Or.inl (by omega : r - 1 + 1 = r))]
  have e2 : Sim2.Amat nXv dXv r r = -2 / dXv ^ 2 := by
    simp only [Sim2.Amat]
    rw [if_neg hr0, if_pos (by omega : r < nXv ∧ r < nXv)]
    simp
  have e3 : Sim2.Amat nXv dXv r (r + 1) = 1 / dXv ^ 2 := by
    simp only [Sim2.Amat]
    rw [if_neg hr0, if_pos (by omega : r < nXv ∧ r + 1 < nXv),
      if_neg (by omega : ¬r + 1 = r)]
    simp
  rw [hsum, Finset.sum_insert (by
      simp only [Finset.mem_insert, Finset.mem_singleton]; omega),
    Finset.sum_insert (by simp only [Finset.mem_singleton]; omega),
    Finset.sum_singleton, e1, e2, e3]
  ring

/-- The RK4 step of `reactFn` from the all-ones row, expressed through
the four stage gadgets. -/
theorem rk4_stage_unfold (cv : ℝ) (r : ℕ) :
    Sim2.RK4gen (1 / 5) (reactFn cv) y1c r =
      y1c r + ((1 / 5) / 6) *
        (k1f cv r + 2 * k2f cv r + 2 * k3f cv r + k4f cv r) := rfl

/-- Stage 1 of `reactFn cv` from the all-ones row is `cv` away from the
grid boundaries. -/
theorem k1f_window (cv : ℝ) (r : ℕ) (h3 : 3 ≤ r) (h9 : r ≤ 9) :
    k1f cv r = cv := by
  simp only [k1f, reactFn]
  rw [matVec_interior 13 (2 / 3) y1c r (by omega) (by omega)]
  norm_num [y1c]

/-- Stage-2 input value on the interior window. -/
theorem y2c_window (cv : ℝ) (r : ℕ) (h3 : 3 ≤ r) (h9 : r ≤ 9) :
    y2c cv r = 1 + cv / 10 := by
  simp only [y2c, y1c]
  rw [k1f_window cv r h3 h9]
  ring

/-- Stage 2 value on the interior window. -/
theorem k2f_window (cv : ℝ) (r : ℕ) (h4 : 4 ≤ r) (h8 : r ≤ 8) :
    k2f cv r = cv * (1 + cv / 10) := by
  simp only [k2f, reactFn]
  rw [matVec_interior 13 (2 / 3) (y2c cv) r (by omega) (by omega),
    y2c_window cv (r - 1) (by omega) (by omega), y2c_window cv r (by omega) (by omega),
    y2c_window cv (r + 1) (by omega) (by omega)]
  ring

/-- Stage-3 input value on the interior window. -/
theorem y3c_window (cv : ℝ) (r : ℕ) (h4 : 4 ≤ r) (h8 : r ≤ 8) :
    y3c cv r = 1 + (1 / 5) * (cv * (1 + cv / 10)) / 2 := by
  simp only [y3c, y1c]
  rw [k2f_window cv r h4 h8]

/-- Stage 3 value on the interior window. -/
theorem k3f_window (cv : ℝ) (r : ℕ) (h5 : 5 ≤ r) (h7 : r ≤ 7) :
    k3f cv r = cv * (1 + (1 / 5) * (cv * (1 + cv / 10)) / 2) := by
  simp only [k3f, reactFn]
  rw [matVec_interior 13 (2 / 3) (y3c cv) r (by omega) (by omega),
    y3c_window cv (r - 1) (by omega) (by omega), y3c_window cv r (by omega) (by omega),
    y3c_window cv (r + 1) (by omega) (by omega)]
  ring

/-- Stage-4 input value on the interior window. -/
theorem y4c_window (cv : ℝ) (r : ℕ) (h5 : 5 ≤ r) (h7 : r ≤ 7) :
    y4c cv r = 1 + (1 / 5) * (cv * (1 + (1 / 5) * (cv * (1 + cv / 10)) / 2)) := by
  simp only [y4c, y1c]
  rw [k3f_window cv r h5 h7]

/-- Stage 4 value at node 6. -/
theorem k4f_at6 (cv : ℝ) :
    k4f cv 6 = cv * (1 + (1 / 5) *
      (cv * (1 + (1 / 5) * (cv * (1 + cv / 10)) / 2))) := by
  simp only [k4f, reactFn]
  rw [matVec_interior 13 (2 / 3) (y4c cv) 6 (by omega) (by omega)]
  rw [show (6 : ℕ) - 1 = 5 from rfl, show (6 : ℕ) + 1 = 7 from rfl,
    y4c_window cv 5 (by omega) (by omega), y4c_window cv 6 (by omega) (by omega),
    y4c_window cv 7 (by omega) (by omega)]
  ring

/-- Closed form of the RK4 step of `reactFn cv` from the all-ones row
at node 6 of the `nT = 5` grid. -/
theorem rk4_react6 (cv : ℝ) :
    Sim2.RK4gen (1 / 5) (reactFn cv) y1c 6 =
      1 + cv / 5 + cv ^ 2 / 50 + cv ^ 3 / 750 + cv ^ 4 / 15000 := by
  rw [rk4_stage_unfold]
  rw [k1f_window cv 6 (by omega) (by omega), k2f_window cv 6 (by omega) (by omega),
    k3f_window cv 6 (by omega) (by omega), k4f_at6]
  simp only [y1c]
  ring

/-- Claim C5 counterexample: in the concrete EC run `p25`
(`dT = 1/5`, `Kc = 5`), the `CO` field at time step 1, interior node 6
is not the classical RK4 update of the claimed ODE
`dC/dT = A*C - Kc*C`: the code evaluates the stage function with the
reaction term scaled by an extra factor `dT`, giving `12281/15000` at
this node where the claimed ODE would give `3/8`. -/
theorem C5_counterexample :
    Sim2.CO p25 1 6 ≠
      Sim2.RK4gen (Sim2.dT p25)
        (fun y r2 => Sim2.matVec (Sim2.Amat (Sim2.nX p25) (Sim2.dX p25))
            (Sim2.nX p25) y r2 - Sim2.Kc p25 * y r2)
        (Sim2.CO p25 0) 6 := by
  have hnX2 : Sim2.nX p25 = 13 := grid_nX_five
  have hdX2 : Sim2.dX p25 = 2 / 3 := grid_dX_five
  have hdelta2 : Sim2.delta p25 = 1 := by
    have h1 : p25.DR * Sim2.tlast p25 = 1 := by norm_num [Sim2.tlast, p25]
    rw [Sim2.delta, h1, Real.sqrt_one]
  have hKc2 : Sim2.Kc p25 = 5 := by
    rw [Sim2.Kc, hdelta2]; norm_num [p25]
  have hdT2 : Sim2.dT p25 = 1 / 5 := by norm_num [Sim2.dT, p25]
  have hrow0 : Sim2.CO p25 0 = y1c := by
    funext j
    show Sim2.initCO p25 = y1c j
    simp [Sim2.initCO, p25, y1c]
  have hfnEC : Sim2.fn p25 "EC" = reactFn (-1) := by
    funext y r2
    simp only [Sim2.fn, reactFn, eq_self_iff_true, if_true]
    rw [hnX2, hdX2, hdT2, hKc2]
    ring
  have hcond6 : (6 : ℕ) < Sim2.nX p25 - 1 := by rw [hnX2]; norm_num
  have hcode : Sim2.CO p25 1 6 = Sim2.RK4gen (1 / 5) (reactFn (-1)) y1c 6 := by
    show (Sim2.stepTriple p25 1 (Sim2.rows p25 0)).2.1 6 = _
    simp only [Sim2.stepTriple]
    rw [if_neg (by norm_num : ¬(6 : ℕ) = 0), if_pos hcond6,
      if_neg (by decide : ¬p25.mech = "E"),
      if_pos (show p25.mech = "EC" from rfl)]
    rw [show (Sim2.rows p25 0).2.1 = Sim2.CO p25 0 from rfl, hrow0]
    simp only [Sim2.RK4]
    rw [hdT2, hfnEC]
  have hfu : (fun y r2 => Sim2.matVec (Sim2.Amat (Sim2.nX p25) (Sim2.dX p25))
      (Sim2.nX p25) y r2 - Sim2.Kc p25 * y r2) = reactFn (-5) := by
    funext y r2
    rw [hnX2, hdX2, hKc2]
    simp only [reactFn]
    ring
  rw [hcode, hfu, hrow0, hdT2, rk4_react6, rk4_react6]
  norm_num

/-- Claim C5 (amended): in the EC mechanism of `simulate2.py`, for
every time step `k >= 1` the interior nodes of the electroactive
species' O field are advanced by classical 4th-order Runge-Kutta with
step `dT` whose stage function is `A*C - (dT*Kc)*C` (the code scales
the reaction term by `dT` inside the stage derivative as well), the
same matrix `A` being used in all four stage evaluations; the product
species P is advanced with the mirrored reaction sign `+(dT*Kc)*C`,
and its surface node is set from the previous step's node-1 value
`CP[k,0] = CP[k-1,1]` rather than given a kinetic boundary
condition. -/
theorem C5_rk4_update (p : P2) (hm : p.mech = "EC") (k : ℕ) (hk : 1 ≤ k)
    (j : ℕ) (hj0 : 1 ≤ j) (hj1 : j < Sim2.nX p - 1) :
    Sim2.CO p k j =
      Sim2.RK4gen (Sim2.dT p)
        (fun y r2 => Sim2.matVec (Sim2.Amat (Sim2.nX p) (Sim2.dX p))
            (Sim2.nX p) y r2 - Sim2.dT p * Sim2.Kc p * y r2)
        (Sim2.CO p (k - 1)) j ∧
    Sim2.CP p k j =
      Sim2.RK4gen (Sim2.dT p)
        (fun y r2 => Sim2.matVec (Sim2.Amat (Sim2.nX p) (Sim2.dX p))
            (Sim2.nX p) y r2 + Sim2.dT p * Sim2.Kc p * y r2)
        (Sim2.CP p (k - 1)) j ∧
    Sim2.CP p k 0 = Sim2.CP p (k - 1) 1 := by
  obtain ⟨m, rfl⟩ : ∃ m, k = m + 1 := ⟨k - 1, (Nat.succ_pred_eq_of_pos hk).symm⟩
  have hne : ¬(j = 0) := by omega
  have hfE : Sim2.fn p "EC" =
      fun y r2 => Sim2.matVec (Sim2.Amat (Sim2.nX p) (Sim2.dX p))
          (Sim2.nX p) y r2 - Sim2.dT p * Sim2.Kc p * y r2 := by
    funext y r2
    simp only [Sim2.fn, eq_self_iff_true, if_true]
    ring
  have hfP : Sim2.fn p "ECP" =
      fun y r2 => Sim2.matVec (Sim2.Amat (Sim2.nX p) (Sim2.dX p))
          (Sim2.nX p) y r2 + Sim2.dT p * Sim2.Kc p * y r2 := by
    funext y r2
    simp only [Sim2.fn]
    rw [if_neg (by decide : ¬("ECP" : String) = "EC")]
    simp
  refine ⟨?_, ?_, ?_⟩
  · show (Sim2.stepTriple p (m + 1) (Sim2.rows p m)).2.1 j = _
    simp only [Sim2.stepTriple]
    rw [if_neg hne, if_pos hj1, if_neg (by rw [hm]; decide), if_pos hm]
    simp only [Sim2.RK4]
    rw [hfE]
    rfl
  · show (Sim2.stepTriple p (m + 1) (Sim2.rows p m)).2.2 j = _
    simp only [Sim2.stepTriple]
    rw [if_pos hm, if_neg hne, if_pos hj1]
    simp only [Sim2.RK4]
    rw [hfP]
    rfl
  · show (Sim2.stepTriple p (m + 1) (Sim2.rows p m)).2.2 0 = _
    simp only [Sim2.stepTriple]
    rw [if_pos hm]
    simp only [eq_self_iff_true, if_true]
    rfl

/-- Claim C5 (amended) witness: the RK4 update relations at time step
1, interior node 1 of the concrete EC run `p25`. -/
theorem C5_rk4_update_witness :
    Sim2.CO p25 1 1 =
      Sim2.RK4gen (Sim2.dT p25)
        (fun y r2 => Sim2.matVec (Sim2.Amat (Sim2.nX p25) (Sim2.dX p25))
            (Sim2.nX p25) y r2 - Sim2.dT p25 * Sim2.Kc p25 * y r2)
        (Sim2.CO p25 0) 1 ∧
    Sim2.CP p25 1 1 =
      Sim2.RK4gen (Sim2.dT p25)
        (fun y r2 => Sim2.matVec (Sim2.Amat (Sim2.nX p25) (Sim2.dX p25))
            (Sim2.nX p25) y r2 + Sim2.dT p25 * Sim2.Kc p25 * y r2)
        (Sim2.CP p25 0) 1 ∧
    Sim2.CP p25 1 0 = Sim2.CP p25 0 1 :=
  C5_rk4_update p25 rfl 1 le_rfl 1 le_rfl
    (by rw [show Sim2.nX p25 = 13 from grid_nX_five]; norm_num)

/-- Back substitution starts from the last unknown: `x[nv-1] = d'[nv-1]`. -/
theorem thomas_last (a b c d : ℕ → ℝ) (nv : ℕ) :
    thomas a b c d nv (nv - 1) = thomD a b c d (nv - 1) := by
  rw [show thomas a b c d nv (nv - 1) =
      thomAux a b c d nv (nv - 1 - (nv - 1)) from rfl, Nat.sub_self]
  rfl

/-- The defining recurrence of the back substitution:
`x[i] = d'[i] - c'[i]*x[i+1]`. -/
theorem thomas_rec (a b c d : ℕ → ℝ) (nv i : ℕ) (h : i + 1 ≤ nv - 1) :
    thomas a b c d nv i =
      thomD a b c d i - thomC a b c i * thomas a b c d nv (i + 1) := by
  have hm : nv - 1 - i = nv - 1 - (i + 1) + 1 := by omega
  have hidx : nv - 1 - (nv - 1 - (i + 1) + 1) = i := by omega
  have h0 : thomas a b c d nv i = thomAux a b c d nv (nv - 1 - (i + 1) + 1) := by
    rw [show thomas a b c d nv i = thomAux a b c d nv (nv - 1 - i) from rfl, hm]
  rw [h0,
    show thomAux a b c d nv (nv - 1 - (i + 1) + 1) =
      thomD a b c d (nv - 1 - (nv - 1 - (i + 1) + 1)) -
        thomC a b c (nv - 1 - (nv - 1 - (i + 1) + 1)) *
          thomAux a b c d nv (nv - 1 - (i + 1)) from rfl,
    hidx,
    show thomAux a b c d nv (nv - 1 - (i + 1)) = thomas a b c d nv (i + 1) from rfl]

/-- The Thomas solution satisfies the first row of the system. -/
theorem thomas_row_first (a b c d : ℕ → ℝ) (nv : ℕ) (h2 : 2 ≤ nv)
    (hb0 : b 0 ≠ 0) :
    b 0 * thomas a b c d nv 0 + c 0 * thomas a b c d nv 1 = d 0 := by
  rw [thomas_rec a b c d nv 0 (by omega),
    show thomD a b c d 0 = d 0 / b 0 from rfl,
    show thomC a b c 0 = c 0 / b 0 from rfl]
  field_simp

/-- The Thomas solution satisfies every interior row of the system. -/
theorem thomas_row_mid (a b c d : ℕ → ℝ) (nv : ℕ)
    (hpiv : ∀ i, 1 ≤ i → i ≤ nv - 1 → b i - a i * thomC a b c (i - 1) ≠ 0)
    (i : ℕ) (h1 : 1 ≤ i) (h2 : i ≤ nv - 2) :
    a i * thomas a b c d nv (i - 1) + b i * thomas a b c d nv i +
      c i * thomas a b c d nv (i + 1) = d i := by
  obtain ⟨t, rfl⟩ : ∃ t, i = t + 1 := ⟨i - 1, by omega⟩
  have hP : b (t + 1) - a (t + 1) * thomC a b c t ≠ 0 := by
    have h3 := hpiv (t + 1) (by omega) (by omega)
    simpa using h3
  have hA : thomas a b c d nv t =
      thomD a b c d t - thomC a b c t * thomas a b c d nv (t + 1) :=
    thomas_rec a b c d nv t (by omega)
  have hB : thomas a b c d nv (t + 1) =
      thomD a b c d (t + 1) - thomC a b c (t + 1) * thomas a b c d nv (t + 2) :=
    thomas_rec a b c d nv (t + 1) (by omega)
  have hD1 : thomD a b c d (t + 1) =
      (d (t + 1) - a (t + 1) * thomD a b c d t) /
        (b (t + 1) - a (t + 1) * thomC a b c t) := rfl
  have hC1 : thomC a b c (t + 1) =
      c (t + 1) / (b (t + 1) - a (t + 1) * thomC a b c t) := rfl
  rw [show (t + 1 : ℕ) - 1 = t from rfl, hA, hB, hD1, hC1]
  field_simp
  ring

/-- The Thomas solution satisfies the last row of the system. -/
theorem thomas_row_last (a b c d : ℕ → ℝ) (nv : ℕ) (h2 : 2 ≤ nv)
    (hpiv : ∀ i, 1 ≤ i → i ≤ nv - 1 → b i - a i * thomC a b c (i - 1) ≠ 0) :
    a (nv - 1) * thomas a b c d nv (nv - 2) +
      b (nv - 1) * thomas a b c d nv (nv - 1) = d (nv - 1) := by
  obtain ⟨t, ht⟩ : ∃ t, nv - 1 = t + 1 := ⟨nv - 2, by omega⟩
  have ht2 : nv - 2 = t := by omega
  have hP : b (t + 1) - a (t + 1) * thomC a b c t ≠ 0 := by
    have h3 := hpiv (t + 1) (by omega) (by omega)
    simpa using h3
  have hA : thomas a b c d nv t =
      thomD a b c d t - thomC a b c t * thomas a b c d nv (t + 1) :=
    thomas_rec a b c d nv t (by omega)
  have hl2 : thomas a b c d nv (t + 1) = thomD a b c d (t + 1) := by
    rw [← ht]
    exact thomas_last a b c d nv
  have hD1 : thomD a b c d (t + 1) =
      (d (t + 1) - a (t + 1) * thomD a b c d t) /
        (b (t + 1) - a (t + 1) * thomC a b c t) := rfl
  rw [ht, ht2, hA, hl2, hD1]
  field_simp
  ring

/-- Claim C6 (spec-modelled: the implicit tridiagonal stepping variant
with double-layer charging is part of this repository but absent from
`src/`; its definitions follow the spec): the Thomas-algorithm solve is
a single forward sweep and a single backward sweep whose result
satisfies every row of the tridiagonal system (given nonzero pivots);
when double-layer charging is enabled the electrode potential is
updated as `V[k+1] = (V[k] + (dt/Cdl)*(E[k]/Ru - iF[k])) /
(1 + dt/(Cdl*Ru))`, which is the implicit discretisation of
`Cdl*dV/dt = (E - V)/Ru - iF`, and the reported total current is
`i = (E - V)/Ru` rather than the Faradaic current alone. -/
theorem C6_implicit_variant (a b c d : ℕ → ℝ) (nv : ℕ) (h2 : 2 ≤ nv)
    (hb0 : b 0 ≠ 0)
    (hpiv : ∀ i, 1 ≤ i → i ≤ nv - 1 → b i - a i * thomC a b c (i - 1) ≠ 0)
    (V Ek iF dtv Cdl Ru : ℝ) (hC : Cdl ≠ 0) (hR : Ru ≠ 0)
    (hS : 1 + dtv / (Cdl * Ru) ≠ 0) :
    (b 0 * thomas a b c d nv 0 + c 0 * thomas a b c d nv 1 = d 0) ∧
    (∀ i, 1 ≤ i → i ≤ nv - 2 →
      a i * thomas a b c d nv (i - 1) + b i * thomas a b c d nv i +
        c i * thomas a b c d nv (i + 1) = d i) ∧
    (a (nv - 1) * thomas a b c d nv (nv - 2) +
      b (nv - 1) * thomas a b c d nv (nv - 1) = d (nv - 1)) ∧
    (Vnext V Ek iF dtv Cdl Ru =
      (V + (dtv / Cdl) * (Ek / Ru - iF)) / (1 + dtv / (Cdl * Ru))) ∧
    (Cdl * (Vnext V Ek iF dtv Cdl Ru - V) =
      dtv * ((Ek - Vnext V Ek iF dtv Cdl Ru) / Ru - iF)) ∧
    (itot Ek (Vnext V Ek iF dtv Cdl Ru) Ru =
      (Ek - Vnext V Ek iF dtv Cdl Ru) / Ru) := by
  refine ⟨thomas_row_first a b c d nv h2 hb0,
    fun i hi1 hi2 => thomas_row_mid a b c d nv hpiv i hi1 hi2,
    thomas_row_last a b c d nv h2 hpiv, rfl, ?_, rfl⟩
  have hCR : Cdl * Ru ≠ 0 := mul_ne_zero hC hR
  have hSR : Cdl * Ru + dtv ≠ 0 := by
    intro h0
    apply hS
    have hd : dtv / (Cdl * Ru) = -1 := by
      rw [div_eq_iff hCR]
      linarith
    rw [hd]
    ring
  simp only [Vnext]
  field_simp
  ring

/-- Claim C6 witness: the concrete diagonally dominant 3 by 3 system
`aW, bW, cW, dW` and unit charging parameters. -/
theorem C6_implicit_variant_witness :
    (bW 0 * thomas aW bW cW dW 3 0 + cW 0 * thomas aW bW cW dW 3 1 = dW 0) ∧
    (aW 1 * thomas aW bW cW dW 3 0 + bW 1 * thomas aW bW cW dW 3 1 +
      cW 1 * thomas aW bW cW dW 3 2 = dW 1) ∧
    (aW 2 * thomas aW bW cW dW 3 1 + bW 2 * thomas aW bW cW dW 3 2 = dW 2) ∧
    (Vnext 1 1 1 1 1 1 = (1 + (1 / 1) * (1 / 1 - 1)) / (1 + 1 / (1 * 1))) ∧
    (1 * (Vnext 1 1 1 1 1 1 - 1) = 1 * ((1 - Vnext 1 1 1 1 1 1) / 1 - 1)) ∧
    (itot 1 (Vnext 1 1 1 1 1 1) 1 = (1 - Vnext 1 1 1 1 1 1) / 1) := by
  have hC0 : thomC aW bW cW 0 = 1 / 4 := rfl
  have hC1 : thomC aW bW cW 1 = 4 / 15 := by
    rw [show thomC aW bW cW 1 =
        cW 1 / (bW 1 - aW 1 * thomC aW bW cW 0) from rfl, hC0]
    norm_num [aW, bW, cW]
  have hpiv : ∀ i, 1 ≤ i → i ≤ 3 - 1 →
      bW i - aW i * thomC aW bW cW (i - 1) ≠ 0 := by
    intro i h1 h2
    interval_cases i
    · norm_num [hC0, aW, bW]
    · norm_num [hC1, aW, bW]
  have T := C6_implicit_variant aW bW cW dW 3 (by norm_num)
    (by norm_num [bW]) hpiv 1 1 1 1 1 1 (by norm_num) (by norm_num) (by norm_num)
  exact ⟨T.1, T.2.1 1 le_rfl le_rfl, T.2.2.1, T.2.2.2.1, T.2.2.2.2.1, T.2.2.2.2.2⟩

/-- Claim C3 witness at the concrete grid `nT = 5`. -/
theorem C3_stability_ratio_witness :
    Grid.lamb = 0.45 ∧ Grid.dX 5 = Real.sqrt (Grid.dT 5 / Grid.lamb) ∧
      Grid.dT 5 / Grid.dX 5 ^ 2 = 0.45 ∧ (0.45 : ℝ) < 0.5 :=
  C3_stability_ratio 5 (by norm_num)

end
